import Mathlib

/-!
# Verification of the Yelp data pipeline (split / upload / load)

Shallow embedding of the pipeline's observable behaviour:

* `split_json_file` (src/utils.py): derives a dataset key from the input
  filename, clears and recreates the per-dataset output directory, chunks the
  parsed records into batches of at most `no_of_lines` records, and writes each
  batch as a JSON-array file with a deterministic name.
* `upload_to_s3` / `upload_file_to_s3` (src/utils.py): builds one remote key
  per local file and uploads every file, swallowing per-file failures.
* `data_load` (src/utils.py): issues a stage-creation statement, then, per
  `.json` file found while walking the output tree, a create-table and a
  copy-into statement named after the containing directory.
* `process_pipeline` (src/process_pipeline.py): selects the `.json` entries of
  the input directory and runs the splitter on each.

Records are an abstract type `α`: the splitter parses each input line to a JSON
value and writes batches back out without inspecting them, so the embedding
carries the parsed values opaquely.  File contents of a batch file are modelled
as the batch's record list (the JSON array that `json.dump` serialises).
-/

namespace YelpPipeline

/-! ### Models of the Python string operations used by the pipeline -/

/-- Model of Python `s.replace(".json", "")`: delete every (non-overlapping,
left-to-right) occurrence of the substring `".json"`. -/
def removeJson : List Char → List Char
  | '.' :: 'j' :: 's' :: 'o' :: 'n' :: cs => removeJson cs
  | c :: cs => c :: removeJson cs
  | [] => []

/-- Whether the substring `".json"` occurs anywhere in the character list. -/
def hasJsonSub : List Char → Bool
  | '.' :: 'j' :: 's' :: 'o' :: 'n' :: _ => true
  | _ :: cs => hasJsonSub cs
  | [] => false

/-- Model of Python `s.split("_")[-1]`: the suffix after the last underscore
(the whole string when there is none, empty when the string ends in `_`). -/
def lastTok (l : List Char) : List Char :=
  (l.reverse.takeWhile (fun c => c ≠ '_')).reverse

/-- Model of POSIX `os.path.basename`: the suffix after the last slash. -/
def basenameChars (l : List Char) : List Char :=
  (l.reverse.takeWhile (fun c => c ≠ '/')).reverse

/-- Model of `os.path.basename` on `String`s. -/
def basename (s : String) : String :=
  (basenameChars s.data).asString

/-- Model of Python `f.endswith(".json")`. -/
def endsWithJson (f : String) : Bool :=
  List.isPrefixOf ['n', 'o', 's', 'j', '.'] f.data.reverse

/-! ### The splitter (`split_json_file`) -/

/-- The dataset key of `split_json_file`:
`os.path.basename(input_file).replace(".json", "").split("_")[-1]`. -/
def split_key (input_file : String) : String :=
  (lastTok (removeJson (basenameChars input_file.data))).asString

/-- The batch loop of `split_json_file`: `data[i : i + no_of_lines]` for
`i in range(0, total_docs, no_of_lines)`.  A step of `0` raises `ValueError`
in Python (`range` rejects it), so the model returns no batches there; every
claim about the splitter assumes a positive batch size. -/
def chunks (B : Nat) (l : List α) : List (List α) :=
  if h : B = 0 ∨ l.isEmpty then []
  else l.take B :: chunks B (l.drop B)
termination_by l.length
decreasing_by
  push_neg at h
  cases l with
  | nil => exact absurd rfl h.2
  | cons a l =>
    simp only [List.length_drop, List.length_cons]
    omega

/-- The per-batch output filename
`f"{split_key}_{len(split_data)}_part_{file_count}.json"`. -/
def batchFileName (key : String) (recordCount seq : Nat) : String :=
  key ++ "_" ++ toString recordCount ++ "_part_" ++ toString seq ++ ".json"

/-- The write loop of `split_json_file`: `file_count` starts at `c` and is
incremented after each batch; each batch is written to its named file. -/
def writeBatches (key : String) : Nat → List (List α) → List (String × List α)
  | _, [] => []
  | c, b :: bs => (batchFileName key b.length c, b) :: writeBatches key (c + 1) bs

/-- The batch files `split_json_file` writes (name, records) for input lines
`l` and batch size `B`; `file_count` starts at 1. -/
def split_json_file_outputs (input_file : String) (B : Nat) (l : List α) :
    List (String × List α) :=
  writeBatches (split_key input_file) 1 (chunks B l)

/-- The final state of the output subdirectory `output_dir/split_key` after one
run of `split_json_file`, as a function of its prior state (`none` = directory
absent, `some fs` = directory present with files `fs`):
the directory is removed recursively when it exists (`shutil.rmtree`), then
recreated (`os.makedirs(..., exist_ok=True)`), then the batch files are
written into it. -/
def split_json_file_run (prior : Option (List (String × List α)))
    (input_file : String) (B : Nat) (l : List α) :
    Option (List (String × List α)) :=
  let afterRmtree : Option (List (String × List α)) :=
    match prior with
    | some _ => none
    | none => none
  let afterMakedirs : Option (List (String × List α)) :=
    match afterRmtree with
    | some fs => some fs
    | none => some []
  afterMakedirs.map (fun fs => fs ++ split_json_file_outputs input_file B l)

/-- The dataset-name rule as the spec words it, for comparison with
`split_key`: the input filename with its trailing `".json"` extension
stripped (when present), then the last underscore-delimited token. -/
def datasetNameSpecRule (filename : String) : String :=
  let stripped : List Char :=
    if List.isSuffixOf ['.', 'j', 's', 'o', 'n'] filename.data then
      filename.data.take (filename.data.length - 5)
    else filename.data
  (lastTok stripped).asString

/-! ### The uploader (`upload_to_s3` / `upload_file_to_s3`) -/

/-- What `upload_file_to_s3` prints for one task: the success line or the
caught-and-logged error line. -/
inductive UploadLogEntry where
  | uploaded (localFilePath : String)
  | errorLogged (localFilePath : String) (err : String)
deriving DecidableEq

/-- Model of `upload_file_to_s3`: the underlying `s3_client.upload_file` call
either succeeds or raises (`attempt`); the `try/except Exception` wrapper
turns either outcome into a printed log line and lets no exception escape
(hence the result type carries no error case). -/
def upload_file_to_s3 (localFilePath : String) (attempt : Except String Unit) :
    UploadLogEntry :=
  match attempt with
  | Except.ok _ => UploadLogEntry.uploaded localFilePath
  | Except.error e => UploadLogEntry.errorLogged localFilePath e

/-- Model of the `executor.map` loop of `upload_to_s3`: every collected task
is handed to `upload_file_to_s3`; an escaping exception would abort the run
(the `Except` layer), and the run ends with the unconditional success print. -/
def upload_to_s3 (tasks : List (String × Except String Unit)) :
    Except String (List UploadLogEntry × String) := do
  let logs ← tasks.mapM (fun t => Except.ok (upload_file_to_s3 t.1 t.2))
  Except.ok (logs, "All files uploaded successfully!")

/-- The remote-key construction of `upload_to_s3` for one local file:
`relative_path = os.path.relpath(local_file_path, local_dir).replace("\\", "/")`
and `s3_key = f"{s3_prefix}/{relative_path}".lstrip("/")`.  `os.path.relpath`
is modelled for the paths `os.walk(local_dir)` yields — files strictly below
`local_dir` — where it returns the path with the leading `local_dir + "/"`
removed. -/
def s3_key_of (keyPre local_dir local_file_path : String) : String :=
  let relative_path : List Char :=
    (local_file_path.data.drop (local_dir.data.length + 1)).map
      (fun c => if c = '\\' then '/' else c)
  ((keyPre.data ++ '/' :: relative_path).dropWhile (fun c => c = '/')).asString

/-! ### The warehouse loader (`data_load`) -/

/-- The SQL statements `data_load` executes, keyed by shape and table name. -/
inductive Stmt where
  | createStage
  | createTable (tableName : String)
  | copyInto (tableName : String)
deriving DecidableEq

/-- The per-directory inner loop of `data_load`: for each file of the
directory that ends in `.json`, a create-table and a copy-into statement for
`tableName` (the directory's base name) are executed, in that order. -/
def tableStmts (tableName : String) (files : List String) : List Stmt :=
  files.flatMap (fun f =>
    if endsWithJson f then [Stmt.createTable tableName, Stmt.copyInto tableName]
    else [])

/-- The statement sequence of one `data_load` run over the walk of the local
output directory, given as the list of `(root, files)` pairs `os.walk`
produces: one stage-creation statement, then the per-directory loop with
`table_name = os.path.basename(root)`. -/
def data_load_stmts (walk : List (String × List String)) : List Stmt :=
  Stmt.createStage :: walk.flatMap (fun e => tableStmts (basename e.1) e.2)

/-! ### The orchestrator (`process_pipeline`) -/

/-- The filenames `process_pipeline` hands to `split_json_file`: the entries
of the input directory listing that end in `.json`, in listing order; every
other entry is skipped by the `if filename.endswith(".json")` guard. -/
def process_pipeline_selected (listing : List String) : List String :=
  listing.filter (fun f => endsWithJson f)

/-! ### Lemmas about the batch loop -/

theorem chunks_nil (B : Nat) : chunks B ([] : List α) = [] := by
  rw [chunks]
  simp

theorem chunks_cons (B : Nat) (hB : B ≠ 0) {l : List α} (hl : l ≠ []) :
    chunks B l = l.take B :: chunks B (l.drop B) := by
  rw [chunks]
  simp [hB, hl]

theorem drop_length_lt_of_ne_nil (B : Nat) (hB : B ≠ 0) {l : List α} (hl : l ≠ []) :
    (l.drop B).length < l.length := by
  cases l with
  | nil => exact absurd rfl hl
  | cons a t =>
    simp only [List.length_drop, List.length_cons]
    omega

theorem chunks_flatten (B : Nat) (hB : B ≠ 0) (l : List α) :
    (chunks B l).flatten = l := by
  generalize hn : l.length = n
  induction n using Nat.strong_induction_on generalizing l with
  | _ n ih =>
    rcases eq_or_ne l [] with rfl | hl
    · simp [chunks_nil]
    · subst hn
      rw [chunks_cons B hB hl, List.flatten_cons,
        ih (l.drop B).length (drop_length_lt_of_ne_nil B hB hl) (l.drop B) rfl]
      exact List.take_append_drop B l

theorem chunks_sum_lengths (B : Nat) (hB : B ≠ 0) (l : List α) :
    ((chunks B l).map List.length).sum = l.length := by
  rw [← List.length_flatten, chunks_flatten B hB]

theorem chunks_length_le (B : Nat) (l : List α) :
    ∀ c ∈ chunks B l, c.length ≤ B := by
  generalize hn : l.length = n
  induction n using Nat.strong_induction_on generalizing l with
  | _ n ih =>
    intro c hc
    rcases eq_or_ne l [] with rfl | hl
    · rw [chunks_nil] at hc
      exact absurd hc (List.not_mem_nil c)
    · rcases eq_or_ne B 0 with rfl | hB

      · rw [chunks] at hc
        simp at hc
      · subst hn
        rw [chunks_cons B hB hl] at hc
        rcases List.mem_cons.mp hc with rfl | hc
        · rw [List.length_take]
          exact min_le_left _ _
        · exact ih (l.drop B).length (drop_length_lt_of_ne_nil B hB hl) (l.drop B) rfl c hc

theorem chunks_count (B : Nat) (hB : 0 < B) (l : List α) :
    (chunks B l).length = (l.length + B - 1) / B := by
  generalize hn : l.length = n
  induction n using Nat.strong_induction_on generalizing l with
  | _ n ih =>
    rcases eq_or_ne l [] with rfl | hl
    · rw [chunks_nil]
      simp only [List.length_nil] at hn ⊢
      rw [← hn, Nat.zero_add, Nat.div_eq_of_lt (by omega)]
    · subst hn
      have hlen : 1 ≤ l.length := by
        cases l with
        | nil => exact absurd rfl hl
        | cons a t => simp
      rw [chunks_cons B hB.ne' hl, List.length_cons,
        ih (l.drop B).length (drop_length_lt_of_ne_nil B hB.ne' hl) (l.drop B) rfl,
        List.length_drop]
      rcases le_or_lt l.length B with hle | hgt
      · have h1 : l.length - B = 0 := by omega
        have h2 : l.length + B - 1 = (l.length - 1) + B := by omega
        rw [h1, h2, Nat.add_div_right _ hB, Nat.zero_add,
          Nat.div_eq_of_lt (by omega), Nat.div_eq_of_lt (by omega)]
      · have h1 : l.length - B + B - 1 = (l.length - B - 1) + B := by omega
        have h2 : l.length + B - 1 = ((l.length - B - 1) + B) + B := by omega
        rw [h1, h2, Nat.add_div_right _ hB, Nat.add_div_right _ hB,
          Nat.add_div_right _ hB]

/-! ### Lemmas about the write loop -/

theorem writeBatches_length (key : String) :
    ∀ (c : Nat) (bs : List (List α)), (writeBatches key c bs).length = bs.length
  | _, [] => rfl
  | c, _ :: bs => by
    simp only [writeBatches, List.length_cons, writeBatches_length key (c + 1) bs]

theorem writeBatches_map_snd (key : String) :
    ∀ (c : Nat) (bs : List (List α)), (writeBatches key c bs).map Prod.snd = bs
  | _, [] => rfl
  | c, b :: bs => by
    simp only [writeBatches, List.map_cons, writeBatches_map_snd key (c + 1) bs]

/-- C1: `split_json_file` on `N` records with positive batch size `B` makes
`⌈N/B⌉` batch files, their record counts sum to `N`, each batch holds at most
`B` records, and concatenating the batches in order reproduces the input. -/
theorem split_json_file_partition (input_file : String) (B : Nat) (l : List α)
    (hB : 0 < B) :
    (split_json_file_outputs input_file B l).length = (l.length + B - 1) / B ∧
    ((split_json_file_outputs input_file B l).map (fun e => e.2.length)).sum
      = l.length ∧
    (∀ e ∈ split_json_file_outputs input_file B l, e.2.length ≤ B) ∧
    ((split_json_file_outputs input_file B l).map Prod.snd).flatten = l := by
  unfold split_json_file_outputs
  refine ⟨?_, ?_, ?_, ?_⟩
  · rw [writeBatches_length, chunks_count B hB]
  · have h : (fun e : String × List α => e.2.length) = List.length ∘ Prod.snd := rfl
    rw [h, ← List.map_map, writeBatches_map_snd, chunks_sum_lengths B hB.ne']
  · intro e he
    have h2 : e.2 ∈ (writeBatches (split_key input_file) 1 (chunks B l)).map Prod.snd :=
      List.mem_map_of_mem Prod.snd he
    rw [writeBatches_map_snd] at h2
    exact chunks_length_le B l e.2 h2
  · rw [writeBatches_map_snd, chunks_flatten B hB.ne']

/-- C1 witness: the theorem at batch size 2 on three records. -/
theorem split_json_file_partition_witness :
    (0 : Nat) < 2 ∧
    ((split_json_file_outputs "yelp_academic_dataset_business.json" 2
        [10, 20, 30]).length = (([10, 20, 30] : List Nat).length + 2 - 1) / 2 ∧
      ((split_json_file_outputs "yelp_academic_dataset_business.json" 2
          [10, 20, 30]).map (fun e => e.2.length)).sum
        = ([10, 20, 30] : List Nat).length ∧
      (∀ e ∈ split_json_file_outputs "yelp_academic_dataset_business.json" 2
          [10, 20, 30], e.2.length ≤ 2) ∧
      ((split_json_file_outputs "yelp_academic_dataset_business.json" 2
          [10, 20, 30]).map Prod.snd).flatten = [10, 20, 30]) :=
  ⟨by decide,
    split_json_file_partition "yelp_academic_dataset_business.json" 2 [10, 20, 30]
      (by decide)⟩

theorem writeBatches_getElem (key : String) :
    ∀ (c : Nat) (bs : List (List α)) (i : Nat),
      (writeBatches key c bs)[i]? =
        bs[i]?.map (fun b => (batchFileName key b.length (c + i), b))
  | _, [], i => by simp [writeBatches]
  | c, b :: bs, 0 => by simp [writeBatches]
  | c, b :: bs, i + 1 => by
    have h : c + 1 + i = c + (i + 1) := by omega
    simp only [writeBatches, List.getElem?_cons_succ,
      writeBatches_getElem key (c + 1) bs i, h]

/-- C7: the `i`-th batch (0-indexed) is written to the file named
`{dataset}_{batch_record_count}_part_{i+1}.json` — the sequence number starts
at 1 and increments per batch in input order — and its content is the `i`-th
chunk, written out as a JSON array (file contents are modelled as the record
list that `json.dump` serialises, pretty-printing being a rendering detail). -/
theorem split_json_file_batch_naming (input_file : String) (B : Nat)
    (l : List α) (i : Nat) :
    (split_json_file_outputs input_file B l)[i]? =
      ((chunks B l)[i]?).map
        (fun b => (batchFileName (split_key input_file) b.length (i + 1), b)) := by
  unfold split_json_file_outputs
  rw [writeBatches_getElem]
  simp only [Nat.add_comm 1 i]

/-- C8 counterexample: with zero records and batch size 1 (so `B ≥ N`), the
splitter produces zero batch files, not exactly one. -/
theorem split_json_file_single_batch_cex :
    ([] : List Nat).length ≤ 1 ∧
    (split_json_file_outputs "yelp_academic_dataset_business.json" 1
        ([] : List Nat)).length ≠ 1 := by
  constructor
  · decide
  · simp [split_json_file_outputs, chunks_nil, writeBatches]

/-- C8 amended: for every input with `1 ≤ N ≤ B` records, the splitter
produces exactly one batch file containing all `N` records (for `N = 0` it
produces zero batch files, per the empty-input boundary). -/
theorem split_json_file_single_batch (input_file : String) (B : Nat)
    (l : List α) (hne : l ≠ []) (hB : l.length ≤ B) :
    split_json_file_outputs input_file B l =
      [(batchFileName (split_key input_file) l.length 1, l)] := by
  have hlen : 0 < l.length := List.length_pos.mpr hne
  have hB0 : B ≠ 0 := by omega
  unfold split_json_file_outputs
  rw [chunks_cons B hB0 hne, List.take_of_length_le hB,
    List.drop_of_length_le hB, chunks_nil]
  rfl

/-- C8 amended witness: two records, batch size 3. -/
theorem split_json_file_single_batch_witness :
    ([5, 6] : List Nat) ≠ [] ∧ ([5, 6] : List Nat).length ≤ 3 ∧
    split_json_file_outputs "yelp_academic_dataset_business.json" 3 [5, 6] =
      [(batchFileName (split_key "yelp_academic_dataset_business.json")
          ([5, 6] : List Nat).length 1, [5, 6])] :=
  ⟨by decide, by decide,
    split_json_file_single_batch "yelp_academic_dataset_business.json" 3 [5, 6]
      (by decide) (by decide)⟩

/-- C9: an empty input file (zero parsed lines) produces zero batch files,
and the dataset subdirectory exists and is empty after the run (`some []`),
whatever its prior state was. -/
theorem split_json_file_empty_input (prior : Option (List (String × List α)))
    (input_file : String) (B : Nat) :
    split_json_file_run prior input_file B ([] : List α) = some [] := by
  cases prior <;>
    simp [split_json_file_run, split_json_file_outputs, chunks_nil, writeBatches]

/-- C4: splitting is destructive-idempotent: the run deletes any existing
target subdirectory before recreating it, so the final state never depends on
the prior state — in particular no stale file survives — and re-running on
the same input and output directory reproduces the same batch-file set. -/
theorem split_json_file_destructive_idempotent
    (p₁ p₂ : Option (List (String × List α))) (input_file : String) (B : Nat)
    (l : List α) :
    split_json_file_run p₁ input_file B l = split_json_file_run p₂ input_file B l ∧
    split_json_file_run (split_json_file_run p₁ input_file B l) input_file B l =
      split_json_file_run p₁ input_file B l := by
  cases p₁ <;> cases p₂ <;> simp [split_json_file_run]

/-! ### Dataset-name derivation (`split_key`) -/

theorem hasJsonSub_cons {c : Char} {cs : List Char}
    (h : hasJsonSub (c :: cs) = false) : hasJsonSub cs = false := by
  rw [hasJsonSub.eq_def] at h
  split at h
  · exact absurd h (by simp)
  · rename_i heq
    injection heq with h1 h2
    subst h2
    exact h
  · rename_i heq
    exact absurd heq (by simp)

/-- When `".json"` does not occur in `l`, `str.replace(".json", "")` on
`l ++ ".json"` removes exactly the appended extension (no occurrence can
straddle the boundary because no proper prefix of `".json"` is also one of
its suffixes). -/
theorem removeJson_append_json : ∀ (l : List Char), hasJsonSub l = false →
    removeJson (l ++ ['.', 'j', 's', 'o', 'n']) = l
  | [], _ => rfl
  | c :: cs, h => by
    rw [removeJson.eq_def]
    split
    · rename_i rest heq
      rcases cs with _ | ⟨c1, _ | ⟨c2, _ | ⟨c3, _ | ⟨c4, cs4⟩⟩⟩⟩ <;> simp at heq
      obtain ⟨rfl, rfl, rfl, rfl, rfl, -⟩ := heq
      simp [hasJsonSub] at h
    · rename_i c' cs' hno heq
      simp only [List.cons_append] at heq
      injection heq with h1 h2
      subst h1
      subst h2
      rw [removeJson_append_json cs (hasJsonSub_cons h)]
    · rename_i heq
      exact absurd heq (by simp)

theorem basenameChars_of_no_slash {l : List Char} (h : ∀ c ∈ l, c ≠ '/') :
    basenameChars l = l := by
  unfold basenameChars
  rw [List.takeWhile_eq_self_iff.mpr ?_, List.reverse_reverse]
  intro x hx
  simpa using h x (List.mem_reverse.mp hx)

/-- C5 counterexample: for the input filename `a_b.json.json` the code derives
`b` (it removes every occurrence of the substring `".json"` before splitting
on `_`), while the last underscore-delimited token of the filename with the
extension stripped is `b.json`. -/
theorem split_key_extension_cex :
    split_key "a_b.json.json" = "b" ∧
    datasetNameSpecRule "a_b.json.json" = "b.json" ∧
    split_key "a_b.json.json" ≠ datasetNameSpecRule "a_b.json.json" := by
  decide

/-- C5 amended: the derived dataset name is the last underscore-delimited
token of the basename after removing every occurrence of the substring
`".json"`; when `".json"` occurs only as the trailing extension (and the
filename has no directory part) this is the last underscore-delimited token
of the extension-stripped filename — in particular
`yelp_academic_dataset_business.json` yields `business` and
`foo_bar_checkin.json` yields `checkin`. -/
theorem split_key_spec (stem : String)
    (hjson : hasJsonSub stem.data = false)
    (hslash : ∀ c ∈ stem.data, c ≠ '/') :
    split_key (stem ++ ".json") = (lastTok stem.data).asString ∧
    split_key "yelp_academic_dataset_business.json" = "business" ∧
    split_key "foo_bar_checkin.json" = "checkin" := by
  refine ⟨?_, by decide, by decide⟩
  unfold split_key
  have hdata : (stem ++ ".json").data = stem.data ++ ['.', 'j', 's', 'o', 'n'] :=
    String.data_append stem ".json"
  rw [hdata, basenameChars_of_no_slash ?_, removeJson_append_json stem.data hjson]
  intro c hc
  rcases List.mem_append.mp hc with h | h
  · exact hslash c h
  · fin_cases h <;> decide

/-- C5 amended witness: the theorem at stem `yelp_academic_dataset_business`. -/
theorem split_key_spec_witness :
    hasJsonSub "yelp_academic_dataset_business".data = false ∧
    (∀ c ∈ "yelp_academic_dataset_business".data, c ≠ '/') ∧
    (split_key ("yelp_academic_dataset_business" ++ ".json") =
        (lastTok "yelp_academic_dataset_business".data).asString ∧
      split_key "yelp_academic_dataset_business.json" = "business" ∧
      split_key "foo_bar_checkin.json" = "checkin") :=
  ⟨by decide, by decide,
    split_key_spec "yelp_academic_dataset_business" (by decide) (by decide)⟩

/-! ### Remote-key construction (`upload_to_s3`) -/

theorem map_no_backslash_eq_self : ∀ (l : List Char), (∀ c ∈ l, c ≠ '\\') →
    l.map (fun c => if c = '\\' then '/' else c) = l
  | [], _ => rfl
  | c :: cs, h => by
    simp only [List.map_cons]
    rw [if_neg (h c (List.mem_cons_self c cs)),
      map_no_backslash_eq_self cs (fun x hx => h x (List.mem_cons_of_mem c hx))]

theorem asString_data (s : String) : s.data.asString = s := rfl

/-- C6: for a file below the local root, the remote key is the destination
prefix, a `/`, and the file's path relative to the local root with path
separators normalized to `/` — provided the prefix is nonempty and does not
itself start with `/` (otherwise `lstrip("/")` would trim further); in
particular local file `output/business/business_100_part_1.json` with prefix
`dataset` and local root `output` yields remote key
`dataset/business/business_100_part_1.json`. -/
theorem s3_key_construction (keyPre local_dir rel : String)
    (hpre_ne : keyPre.data ≠ [])
    (hpre_head : keyPre.data.head? ≠ some '/')
    (hrel : ∀ c ∈ rel.data, c ≠ '\\') :
    s3_key_of keyPre local_dir (local_dir ++ "/" ++ rel) =
      keyPre ++ "/" ++ rel ∧
    s3_key_of "dataset" "output" "output/business/business_100_part_1.json" =
      "dataset/business/business_100_part_1.json" := by
  refine ⟨?_, by decide⟩
  unfold s3_key_of
  have h1 : (local_dir ++ "/" ++ rel).data.drop (local_dir.data.length + 1)
      = rel.data := by
    rw [String.data_append, String.data_append]
    have h2 : local_dir.data ++ ("/" : String).data ++ rel.data
        = (local_dir.data ++ ['/']) ++ rel.data := rfl
    have h3 : local_dir.data.length + 1 = (local_dir.data ++ ['/']).length := by
      simp
    rw [h2, h3, List.drop_left]
  rw [h1, map_no_backslash_eq_self rel.data hrel]
  have h4 : (keyPre.data ++ '/' :: rel.data).dropWhile (fun c => c = '/')
      = keyPre.data ++ '/' :: rel.data := by
    cases hp : keyPre.data with
    | nil => exact absurd hp hpre_ne
    | cons p ps =>
      have hpne : p ≠ '/' := by
        intro hcontra
        rw [hp, hcontra] at hpre_head
        exact hpre_head rfl
      simp only [List.cons_append, List.dropWhile_cons]
      rw [if_neg (by simp [hpne])]
  show ((keyPre.data ++ '/' :: rel.data).dropWhile (fun c => c = '/')).asString
    = keyPre ++ "/" ++ rel
  rw [h4]
  apply String.ext
  rw [String.data_append, String.data_append, List.append_assoc]
  rfl

/-- C6 witness: the theorem at the spec's example values. -/
theorem s3_key_construction_witness :
    ("dataset" : String).data ≠ [] ∧
    ("dataset" : String).data.head? ≠ some '/' ∧
    (∀ c ∈ ("business/business_100_part_1.json" : String).data, c ≠ '\\') ∧
    (s3_key_of "dataset" "output"
        ("output" ++ "/" ++ "business/business_100_part_1.json") =
      "dataset" ++ "/" ++ "business/business_100_part_1.json" ∧
    s3_key_of "dataset" "output" "output/business/business_100_part_1.json" =
      "dataset/business/business_100_part_1.json") :=
  ⟨by decide, by decide, by decide,
    s3_key_construction "dataset" "output" "business/business_100_part_1.json"
      (by decide) (by decide) (by decide)⟩

/-! ### Upload failure isolation (`upload_to_s3`) -/

theorem mapM_ok_eq_map {β γ : Type} (g : β → γ) : ∀ (l : List β),
    l.mapM (fun b => (Except.ok (g b) : Except String γ)) = Except.ok (l.map g)
  | [] => rfl
  | b :: bs => by
    rw [List.mapM_cons, mapM_ok_eq_map g bs]
    rfl

/-- C3: every task in the run is attempted and logged — a failing upload is
caught and recorded without aborting the others — and the run as a whole
returns success (here: the `Except.ok` case, ending with the unconditional
success message) no matter how many individual uploads failed. -/
theorem upload_to_s3_isolates_failures
    (tasks : List (String × Except String Unit)) :
    upload_to_s3 tasks =
      Except.ok (tasks.map (fun t => upload_file_to_s3 t.1 t.2),
        "All files uploaded successfully!") ∧
    (tasks.map (fun t => upload_file_to_s3 t.1 t.2)).length = tasks.length ∧
    (∀ f e, (f, Except.error e) ∈ tasks →
      UploadLogEntry.errorLogged f e ∈
        tasks.map (fun t => upload_file_to_s3 t.1 t.2)) ∧
    (∀ f, (f, Except.ok ()) ∈ tasks →
      UploadLogEntry.uploaded f ∈
        tasks.map (fun t => upload_file_to_s3 t.1 t.2)) := by
  refine ⟨?_, List.length_map tasks _, ?_, ?_⟩
  · unfold upload_to_s3
    rw [mapM_ok_eq_map (fun t => upload_file_to_s3 t.1 t.2) tasks]
    rfl
  · intro f e hmem
    exact List.mem_map_of_mem (fun t => upload_file_to_s3 t.1 t.2) hmem
  · intro f hmem
    exact List.mem_map_of_mem (fun t => upload_file_to_s3 t.1 t.2) hmem

/-- C3 witness: a failing task between two succeeding ones is logged and the
run still succeeds. -/
theorem upload_to_s3_isolates_failures_witness :
    upload_to_s3 [("a.json", Except.ok ()), ("b.json", Except.error "boom"),
        ("c.json", Except.ok ())] =
      Except.ok ([UploadLogEntry.uploaded "a.json",
          UploadLogEntry.errorLogged "b.json" "boom",
          UploadLogEntry.uploaded "c.json"],
        "All files uploaded successfully!") :=
  (upload_to_s3_isolates_failures [("a.json", Except.ok ()),
    ("b.json", Except.error "boom"), ("c.json", Except.ok ())]).1

/-! ### Warehouse-loader statement counts (`data_load`) -/

theorem tableStmts_cons (t f : String) (fs : List String) :
    tableStmts t (f :: fs) =
      (if endsWithJson f then [Stmt.createTable t, Stmt.copyInto t] else []) ++
        tableStmts t fs := by
  simp only [tableStmts, List.flatMap_cons]

theorem tableStmts_count_createTable (t : String) : ∀ (files : List String),
    (tableStmts t files).count (Stmt.createTable t) =
      (files.filter (fun f => endsWithJson f)).length
  | [] => rfl
  | f :: fs => by
    rw [tableStmts_cons, List.count_append, tableStmts_count_createTable t fs,
      List.filter_cons]
    by_cases h : endsWithJson f = true
    · simp [h, Nat.add_comm]
    · simp [h]

theorem tableStmts_count_copyInto (t : String) : ∀ (files : List String),
    (tableStmts t files).count (Stmt.copyInto t) =
      (files.filter (fun f => endsWithJson f)).length
  | [] => rfl
  | f :: fs => by
    rw [tableStmts_cons, List.count_append, tableStmts_count_copyInto t fs,
      List.filter_cons]
    by_cases h : endsWithJson f = true
    · simp [h, Nat.add_comm]
    · simp [h]

theorem tableStmts_count_ne (s : Stmt) (t : String)
    (h1 : s ≠ Stmt.createTable t) (h2 : s ≠ Stmt.copyInto t) :
    ∀ (files : List String), (tableStmts t files).count s = 0
  | [] => rfl
  | f :: fs => by
    rw [tableStmts_cons, List.count_append, tableStmts_count_ne s t h1 h2 fs]
    by_cases h : endsWithJson f = true
    · simp [h, List.count_cons, Ne.symm h1, Ne.symm h2]
    · simp [h]

/-- The total count of a statement over the walk loop is its count at any one
entry whose count is nonzero nowhere else. -/
theorem flatMap_count_of_mem (s : Stmt) (walk : List (String × List String))
    (e : String × List String) (he : e ∈ walk)
    (hzero : ∀ a ∈ walk, basename a.1 ≠ basename e.1 →
      (tableStmts (basename a.1) a.2).count s = 0)
    (hdist : walk.Pairwise (fun a b => basename a.1 ≠ basename b.1)) :
    (walk.flatMap (fun x => tableStmts (basename x.1) x.2)).count s =
      (tableStmts (basename e.1) e.2).count s := by
  induction walk with
  | nil => cases he
  | cons a w ih =>
    rw [List.flatMap_cons, List.count_append]
    rw [List.pairwise_cons] at hdist
    rcases List.mem_cons.mp he with rfl | he2
    · have hz : (w.flatMap fun x => tableStmts (basename x.1) x.2).count s = 0 := by
        rw [List.count_flatMap]
        apply List.sum_eq_zero
        intro x hx
        rw [List.mem_map] at hx
        obtain ⟨b, hb, rfl⟩ := hx
        exact hzero b (List.mem_cons_of_mem _ hb) (Ne.symm (hdist.1 b hb))
      rw [hz, Nat.add_zero]
    · have ha : (tableStmts (basename a.1) a.2).count s = 0 :=
        hzero a (List.mem_cons_self a w) (hdist.1 e he2)
      rw [ha, Nat.zero_add]
      exact ih he2 (fun b hb hne => hzero b (List.mem_cons_of_mem _ hb) hne) hdist.2

/-- C2 counterexample: one dataset subdirectory holding two `.json` files
receives two create-table and two copy-into statements in one run, not
exactly one of each. -/
theorem data_load_per_dir_cex :
    (data_load_stmts [("output/business",
        ["business_1_part_1.json", "business_1_part_2.json"])]).count
      (Stmt.createTable "business") = 2 ∧
    (data_load_stmts [("output/business",
        ["business_1_part_1.json", "business_1_part_2.json"])]).count
      (Stmt.copyInto "business") = 2 := by
  decide

/-- C2 amended: each run executes exactly one stage-creation statement, and,
for every walked subdirectory (assuming distinct base names), one create-table
and one copy-into statement **per `.json` file the subdirectory contains** —
so a subdirectory with `k ≥ 1` such files gets `k` of each — with the
subdirectory's base name used as the table name. -/
theorem data_load_stmts_spec (walk : List (String × List String))
    (hdist : walk.Pairwise (fun a b => basename a.1 ≠ basename b.1)) :
    (data_load_stmts walk).count Stmt.createStage = 1 ∧
    ∀ e ∈ walk,
      (data_load_stmts walk).count (Stmt.createTable (basename e.1)) =
        (e.2.filter (fun f => endsWithJson f)).length ∧
      (data_load_stmts walk).count (Stmt.copyInto (basename e.1)) =
        (e.2.filter (fun f => endsWithJson f)).length := by
  constructor
  · unfold data_load_stmts
    rw [List.count_cons]
    have hz : (walk.flatMap fun e => tableStmts (basename e.1) e.2).count
        Stmt.createStage = 0 := by
      rw [List.count_flatMap]
      apply List.sum_eq_zero
      intro x hx
      rw [List.mem_map] at hx
      obtain ⟨b, hb, rfl⟩ := hx
      exact tableStmts_count_ne _ _ (by simp) (by simp) b.2
    rw [hz]
    simp
  · intro e he
    constructor
    · unfold data_load_stmts
      rw [List.count_cons,
        flatMap_count_of_mem _ walk e he
          (fun a _ hne =>
            tableStmts_count_ne _ _ (by simp [Ne.symm hne]) (by simp) a.2)
          hdist,
        tableStmts_count_createTable]
      simp
    · unfold data_load_stmts
      rw [List.count_cons,
        flatMap_count_of_mem _ walk e he
          (fun a _ hne =>
            tableStmts_count_ne _ _ (by simp) (by simp [Ne.symm hne]) a.2)
          hdist,
        tableStmts_count_copyInto]
      simp

/-- C2 amended witness: two subdirectories, one with two `.json` files and a
non-JSON file, one with a single `.json` file. -/
theorem data_load_stmts_spec_witness :
    ([("output/business", ["business_2_part_1.json", "business_1_part_2.json",
        "notes.txt"]), ("output/review", ["review_1_part_1.json"])] :
      List (String × List String)).Pairwise
        (fun a b => basename a.1 ≠ basename b.1) ∧
    ((data_load_stmts [("output/business", ["business_2_part_1.json",
          "business_1_part_2.json", "notes.txt"]),
        ("output/review", ["review_1_part_1.json"])]).count Stmt.createStage = 1 ∧
      ∀ e ∈ ([("output/business", ["business_2_part_1.json",
          "business_1_part_2.json", "notes.txt"]),
          ("output/review", ["review_1_part_1.json"])] :
        List (String × List String)),
        (data_load_stmts [("output/business", ["business_2_part_1.json",
            "business_1_part_2.json", "notes.txt"]),
          ("output/review", ["review_1_part_1.json"])]).count
            (Stmt.createTable (basename e.1)) =
          (e.2.filter (fun f => endsWithJson f)).length ∧
        (data_load_stmts [("output/business", ["business_2_part_1.json",
            "business_1_part_2.json", "notes.txt"]),
          ("output/review", ["review_1_part_1.json"])]).count
            (Stmt.copyInto (basename e.1)) =
          (e.2.filter (fun f => endsWithJson f)).length) :=
  ⟨by decide,
    data_load_stmts_spec [("output/business", ["business_2_part_1.json",
        "business_1_part_2.json", "notes.txt"]),
      ("output/review", ["review_1_part_1.json"])] (by decide)⟩

/-! ### Orchestrator file selection (`process_pipeline`) -/

/-- C10: `process_pipeline` invokes the splitter exactly on the input-directory
entries whose names end in `.json`; any other entry is silently skipped — it
appears in no splitter invocation (and hence contributes no batch files,
uploads, or warehouse tables, which are all derived from splitter output). -/
theorem process_pipeline_selection (listing : List String) (f : String) :
    (f ∈ process_pipeline_selected listing ↔
      f ∈ listing ∧ endsWithJson f = true) ∧
    (process_pipeline_selected listing).count f =
      (if endsWithJson f = true then listing.count f else 0) := by
  constructor
  · exact List.mem_filter
  · by_cases h : endsWithJson f = true
    · rw [if_pos h]
      exact List.count_filter h
    · rw [if_neg h, List.count_eq_zero]
      intro hmem
      exact h ((List.mem_filter.mp hmem).2)

end YelpPipeline
